import Mathlib

/-!
Shallow embedding of the Bloom & Brew core simulation, translated from the
JavaScript sources:

* `src/js/algorithms/queuing-theory.js` — the analytic M/M/c `QueueingModel`.
* `src/js/systems/management.js` — the `Customer` state machine and the
  `CafeSystem` (tables, waiting queue, order pipeline, payment handling).

JavaScript numbers are modelled as exact rationals (`ℚ`); every formula below
is the real-arithmetic reading of the corresponding floating-point expression.
All inputs used in the theorems keep the computations far from any division by
zero, so the rational model and the JavaScript evaluation agree up to the
usual floating-point rounding, which is far below the tolerances involved.
-/

namespace Bloom

/-! ## QueueingModel (src/js/algorithms/queuing-theory.js)

The JS class stores `arrivalRate` (λ), `serviceRate` (μ) and `servers` (c) and
derives every metric from them; the derived fields are recomputed by the
constructor, so we model each `calculateX` method as a function of the three
parameters. The JS `factorial` helper computes the ordinary factorial of a
natural number, which is `Nat.factorial` here. -/

structure QueueingModel where
  arrivalRate : ℚ
  serviceRate : ℚ
  servers : ℕ
  deriving DecidableEq, Repr

namespace QueueingModel

/-- Line 27: `calculateTrafficIntensity`, ρ = λ / (c·μ). -/
def calculateTrafficIntensity (m : QueueingModel) : ℚ :=
  m.arrivalRate / (m.servers * m.serviceRate)

/-- Line 34: `calculateProbabilityZero`, the Erlang-C normalizing term.
`sum` is the loop `for (n = 0; n < servers; n++)`, and `finalTerm` is the
added closing term; there is no branch on ρ ≥ 1 anywhere in the method. -/
def calculateProbabilityZero (m : QueueingModel) : ℚ :=
  let rho := m.calculateTrafficIntensity
  let sum := ∑ n ∈ Finset.range m.servers,
    (m.arrivalRate / m.serviceRate) ^ n / (Nat.factorial n : ℚ)
  let finalTerm := (m.arrivalRate / m.serviceRate) ^ m.servers /
    (Nat.factorial m.servers : ℚ) * (1 / (1 - rho))
  1 / (sum + finalTerm)

/-- Line 54: `calculateAverageQueueLength` (Lq). -/
def calculateAverageQueueLength (m : QueueingModel) : ℚ :=
  let rho := m.calculateTrafficIntensity
  let numerator := (m.arrivalRate / m.serviceRate) ^ m.servers * rho *
    m.calculateProbabilityZero
  let denominator := (Nat.factorial m.servers : ℚ) * (1 - rho) ^ 2
  numerator / denominator

/-- Line 65: `calculateAverageTimeInQueue` (Wq = Lq / λ). -/
def calculateAverageTimeInQueue (m : QueueingModel) : ℚ :=
  m.calculateAverageQueueLength / m.arrivalRate

/-- Line 72: `calculateUtilization` returns the traffic intensity again. -/
def calculateUtilization (m : QueueingModel) : ℚ :=
  m.calculateTrafficIntensity

end QueueingModel

/-! ## Static data of the cafe simulation (src/js/systems/management.js)

Enumerations for the JS string-valued state fields, the menu table, and the
special-request vocabulary. -/

/-- Customer lifecycle states; the JS comment at line 271 lists them as
entering, waiting, ordering, waiting_for_order, eating, paying, leaving. -/
inductive CustomerState
  | entering
  | waiting
  | ordering
  | waiting_for_order
  | eating
  | paying
  | leaving
  deriving DecidableEq, Repr

/-- Order statuses: pending, preparing, ready, served. -/
inductive OrderStatus
  | pending
  | preparing
  | ready
  | served
  deriving DecidableEq, Repr

/-- Table statuses; line 420 lists empty, waiting, eating, dirty, and
`seatCustomer` additionally uses cleaning. -/
inductive TableStatus
  | empty
  | waiting
  | eating
  | dirty
  | cleaning
  deriving DecidableEq, Repr

/-- The reasons passed to `handleCustomerLeave`: the two switch cases plus
the `paid` call site in `CafeSystem.update`. -/
inductive LeaveReason
  | waited_too_long
  | no_available_tables
  | paid
  deriving DecidableEq, Repr

/-- One entry of `MENU_ITEMS` (lines 239–256). -/
structure MenuItem where
  price : ℚ
  prepTime : ℚ
  itemType : String
  requiresBakery : Bool
  deriving DecidableEq, Repr

/-- The `MENU_ITEMS` table, lines 239–256. -/
def MENU_ITEMS : List (String × MenuItem) :=
  [("coffee", ⟨3.5, 2, "beverage", false⟩),
   ("espresso", ⟨2.5, 3, "beverage", false⟩),
   ("tea", ⟨3, 2, "beverage", false⟩),
   ("latte", ⟨4.5, 4, "beverage", false⟩),
   ("cappuccino", ⟨4, 4, "beverage", false⟩),
   ("croissant", ⟨2.5, 1, "food", true⟩),
   ("muffin", ⟨3, 1, "food", true⟩),
   ("sandwich", ⟨7, 5, "food", false⟩),
   ("salad", ⟨8, 4, "food", false⟩),
   ("cake", ⟨5, 1, "food", true⟩),
   ("special", ⟨10, 8, "special", true⟩)]

/-- Lookup `MENU_ITEMS[key]`; the default is never reached at the call sites
modelled here because keys are always drawn from the table itself. -/
def menuItem (key : String) : MenuItem :=
  ((MENU_ITEMS.find? (fun p => p.1 == key)).map Prod.snd).getD ⟨0, 0, "", false⟩

/-- Lines 324–335, `generateSpecialRequest`: a uniform pick from a seven-entry
vocabulary; the random index is a parameter of the model. -/
def generateSpecialRequest (rand : ℕ) : String :=
  (["Extra hot", "No sugar", "Extra cream", "On the side", "Gluten-free",
    "Vegan option", "Extra spicy"][rand % 7]?).getD ""

/-! ## Orders and customers -/

/-- An order (lines 304–313). `oid` models JS object identity (orders are
linked to customers by reference in the source); `timeStarted` starts at the
JS-falsy `0` standing for the initially absent field, and is read back
through `Order.effectiveStart` which mirrors the expression
`order.timeStarted || order.timePlaced` at line 566. -/
structure Order where
  oid : ℕ
  item : String
  quantity : ℕ
  totalPrice : ℚ
  prepTime : ℚ
  specialRequest : Option String
  status : OrderStatus
  timePlaced : ℚ
  timeStarted : ℚ
  timeCompleted : ℚ
  deriving DecidableEq, Repr

/-- The fallback `order.timeStarted || order.timePlaced` of line 566 (both
the absent field and a stamped `0` are falsy in JS). -/
def Order.effectiveStart (o : Order) : ℚ :=
  if o.timeStarted = 0 then o.timePlaced else o.timeStarted

/-- A customer (constructor at lines 259–275). The per-instance randomized
patience, spending power and tip multiplier are plain fields here — the
claims quantify over them. `cid` models JS object identity; `table` holds
the id of the referenced table; `order` holds a value snapshot of the order
created by `generateOrder`, tied to the central order list by its `oid` (no
field of an order that is mutated after placement is ever read back through
this snapshot). The DOM-only `visual` field is omitted. -/
structure Customer where
  cid : ℕ
  ctype : String
  name : String
  patience : ℚ
  spendingPower : ℚ
  tipMultiplier : ℚ
  orderPreferences : List String
  hasSpecialRequest : Bool
  arrivalTime : ℚ
  order : Option Order
  table : Option ℕ
  state : CustomerState
  satisfaction : ℚ
  waitStartTime : ℚ
  deriving DecidableEq, Repr

namespace Customer

/-- Lines 318–322: the bakery availability stub, which always returns true. -/
def checkBakeryAvailability (_c : Customer) (_item : String) : Bool := true

/-- Lines 278–316, `generateOrder`. Random draws (item index, quantity,
special-request index) are passed in; `Math.floor(Math.random() * len)` is
modelled as `rand % len`. Returns the created order, which the caller stores
in the customer (the JS method assigns `this.order` before returning it);
`oid` is the fresh identity for the new order object. -/
def generateOrder (c : Customer) (availableItems : List String)
    (randItem randQty randRequest oid : ℕ) : Option Order :=
  let preferredItems := c.orderPreferences.filter (fun item =>
    availableItems.contains item &&
      (!(menuItem item).requiresBakery || c.checkBakeryAvailability item))
  let itemsToChooseFrom :=
    if preferredItems.length > 0 then preferredItems else availableItems
  if itemsToChooseFrom.length = 0 then
    none
  else
    let selectedItem := (itemsToChooseFrom[randItem % itemsToChooseFrom.length]?).getD ""
    let quantity := 1 + randQty % 3
    let itemPrice := (menuItem selectedItem).price
    let totalPrice := itemPrice * quantity
    let prepTime := (menuItem selectedItem).prepTime
    some { oid := oid, item := selectedItem, quantity := quantity,
           totalPrice := totalPrice, prepTime := prepTime,
           specialRequest :=
             if c.hasSpecialRequest then some (generateSpecialRequest randRequest) else none,
           status := .pending, timePlaced := 0, timeStarted := 0, timeCompleted := 0 }

/-- Lines 389–394, `calculateTip`; `rand` models the uniform draw in [0,1).
A missing order would throw in JS; the claims never evaluate the tip of a
customer without an order, so the snapshot price defaults to 0 here. -/
def calculateTip (c : Customer) (rand : ℚ) : ℚ :=
  let baseTip := ((c.order.map Order.totalPrice).getD 0) * (1/10 + rand * (1/10))
  let satisfactionModifier := c.satisfaction / 100
  baseTip * satisfactionModifier * c.tipMultiplier

/-- True when the order referenced by this customer is the order with
identity `oid` (the JS test `c.order === order` at line 577). -/
def ownsOrder (c : Customer) (oid : ℕ) : Bool :=
  match c.order with
  | some o => o.oid == oid
  | none => false

end Customer

/-- Terminal events returned by `Customer.update`. -/
inductive CustomerEvent
  | customer_left (reason : LeaveReason)
  | payment_received (amount tip : ℚ)
  deriving DecidableEq, Repr

/-- Lines 337–377, `Customer.update`. Returns the mutated customer together
with the event the JS method returns (or `none`). `tipRand` feeds the random
draw inside `calculateTip` on the paying path. Times are in simulated
seconds; the `/ 60` conversions to minutes are as in the source. -/
def Customer.update (c : Customer) (gameTime timeDelta tipRand : ℚ) :
    Customer × Option CustomerEvent :=
  match c.state with
  | .waiting | .waiting_for_order =>
    let waitTime := (gameTime - c.waitStartTime) / 60
    let c1 := { c with satisfaction := max 0 (100 - waitTime * 5) }
    if waitTime > c.patience then
      ({ c1 with state := .leaving }, some (.customer_left .waited_too_long))
    else
      (c1, none)
  | .eating =>
    let c1 := { c with satisfaction := min 100 (c.satisfaction + timeDelta * 0.5) }
    if gameTime - c.waitStartTime > 10 * 60 then
      ({ c1 with state := .paying, waitStartTime := gameTime }, none)
    else
      (c1, none)
  | .paying =>
    if gameTime - c.waitStartTime > 1 * 60 then
      ({ c with state := .leaving },
       some (.payment_received ((c.order.map Order.totalPrice).getD 0)
              (c.calculateTip tipRand)))
    else
      (c, none)
  | _ => (c, none)

/-! ## Tables, the cafe state, and helper operations -/

/-- A table (lines 415–424). `customer` holds the id of the occupying
customer. -/
structure Table where
  tid : ℕ
  customer : Option ℕ
  status : TableStatus
  timeOccupied : ℚ
  deriving DecidableEq, Repr

/-- Line 415, `initializeTables`. -/
def initializeTables (count : ℕ) : List Table :=
  (List.range count).map (fun i =>
    { tid := i, customer := none, status := .empty, timeOccupied := 0 })

/-- Model of the `setTimeout(…, 3000)` call at lines 518–520: a callback
scheduled `delayMs` milliseconds of wall-clock (real) time ahead — the
simulated game clock plays no role in when it fires — whose body sets the
status of table `tid` back to `empty`. -/
structure WallClockTimer where
  tid : ℕ
  delayMs : ℚ
  deriving DecidableEq, Repr

/-- The mutable `this.game.playerStats` fields touched by the cafe core. -/
structure PlayerStats where
  money : ℚ
  reputation : ℚ
  deriving DecidableEq, Repr

/-- The `CafeSystem` state (constructor at lines 397–413). The waiting queue
holds customer ids (the JS queue holds the customer objects themselves);
`queueModel` stores the three parameters of the analytic model, whose derived
metrics are separate functions here. DOM-only fields are omitted. -/
structure CafeSystem where
  tables : List Table
  customers : List Customer
  orders : List Order
  availableServers : ℕ
  busyServers : ℕ
  queue : List ℕ
  dailyEarnings : ℚ
  dailyCustomers : ℕ
  queueModel : QueueingModel
  playerStats : PlayerStats
  deriving Repr

/-- Replace the first element satisfying `p` by its image under `f` — the
model of mutating the one JS object a reference points at. -/
def updateFirst (p : α → Bool) (f : α → α) : List α → List α
  | [] => []
  | x :: xs => if p x then f x :: xs else x :: updateFirst p f xs

namespace CafeSystem

/-- Dereference a customer id. -/
def customerById (sys : CafeSystem) (cid : ℕ) : Option Customer :=
  sys.customers.find? (fun c => c.cid == cid)

/-- Dereference a table id. -/
def tableById (sys : CafeSystem) (tid : ℕ) : Option Table :=
  sys.tables.find? (fun t => t.tid == tid)

/-- Mutate the table object with id `tid` (reference update). -/
def modifyTable (sys : CafeSystem) (tid : ℕ) (f : Table → Table) : CafeSystem :=
  { sys with tables := updateFirst (fun t => t.tid == tid) f sys.tables }

/-- Mutate the customer object with id `cid` (reference update). -/
def modifyCustomer (sys : CafeSystem) (cid : ℕ) (f : Customer → Customer) : CafeSystem :=
  { sys with customers := updateFirst (fun c => c.cid == cid) f sys.customers }

/-- Lines 508–510, `findAvailableTable`: the first table whose status is
`empty` or `dirty` — dirty tables are offered as available. -/
def findAvailableTable (sys : CafeSystem) : Option Table :=
  sys.tables.find? (fun table => table.status == .empty || table.status == .dirty)

/-- Lines 443–450, `updateQueueModel`: rebuilds the analytic model from the
current queue length and the simulated clock. (At `gameTime = 0` the JS
division yields NaN while rational division yields 0; no claim evaluates the
model there.) -/
def updateQueueModel (sys : CafeSystem) (gameTime : ℚ) : CafeSystem :=
  let arrivalRate := (sys.queue.length : ℚ) / (gameTime / 60)
  let serviceRate := (sys.availableServers : ℚ) * 0.3
  { sys with queueModel :=
      { arrivalRate := arrivalRate, serviceRate := serviceRate,
        servers := sys.availableServers } }

/-- Lines 512–543, `seatCustomer`. For a dirty table: set it to `cleaning`,
schedule the wall-clock timer, and return `false` without touching the
customer. Otherwise: occupy the table, move the customer to `waiting`, run
`generateOrder` over the full menu key list, and, when an order was created,
stamp `timePlaced`, append it to the central order list and move the
customer to `waiting_for_order`, returning `true`. The fresh JS identity of
the created order is modelled as the current length of the order list;
`gameTime` is `this.game.gameTime`, and the three `rand` arguments feed the
random draws of `generateOrder`. -/
def seatCustomer (sys : CafeSystem) (gameTime : ℚ) (cid tid : ℕ)
    (randItem randQty randRequest : ℕ) :
    CafeSystem × Bool × List WallClockTimer :=
  match sys.tableById tid with
  | none => (sys, false, [])
  | some table =>
    if table.status = .dirty then
      (sys.modifyTable tid (fun t => { t with status := .cleaning }), false,
       [{ tid := tid, delayMs := 3000 }])
    else
      let sys1 := sys.modifyTable tid
        (fun t => { t with customer := some cid, status := .waiting })
      let sys2 := sys1.modifyCustomer cid
        (fun c => { c with table := some tid, state := .waiting, waitStartTime := gameTime })
      let availableItems := MENU_ITEMS.map Prod.fst
      match (sys2.customerById cid).bind (fun c =>
          c.generateOrder availableItems randItem randQty randRequest sys2.orders.length) with
      | some order =>
        let order := { order with timePlaced := gameTime }
        let sys3 := sys2.modifyCustomer cid
          (fun c => { c with order := some order, state := .waiting_for_order })
        ({ sys3 with orders := sys3.orders ++ [order] }, true, [])
      | none => (sys2, true, [])

/-- The body of the `setTimeout` callback of lines 518–520, run when the
wall-clock delay has elapsed: the table goes back to `empty`. The function
takes no simulated-time argument because the callback uses none. -/
def fireCleaningTimer (sys : CafeSystem) (timer : WallClockTimer) : CafeSystem :=
  sys.modifyTable timer.tid (fun t => { t with status := .empty })

/-- The seating loop of `processQueue` (lines 492–502): for the snapshot of
waiting customers taken from the queue, repeatedly take `findAvailableTable`;
when a table is found, call `seatCustomer` — its Boolean result is ignored by
the source — and unconditionally remove the customer from the queue; when no
table is found, break. `rands` supplies the per-seating order-generation
randomness. -/
def processQueueLoop (gameTime : ℚ) :
    List ℕ → List (ℕ × ℕ × ℕ) → CafeSystem → CafeSystem × List WallClockTimer
  | [], _, sys => (sys, [])
  | cid :: rest, rands, sys =>
    match sys.findAvailableTable with
    | some table =>
      let r := rands.headD (0, 0, 0)
      let (sys1, _seated, timers) := sys.seatCustomer gameTime cid table.tid r.1 r.2.1 r.2.2
      let sys2 := { sys1 with queue := sys1.queue.filter (fun cid2 => cid2 != cid) }
      let (sys3, timers2) := processQueueLoop gameTime rest rands.tail sys2
      (sys3, timers ++ timers2)
    | none => (sys, [])

/-- Lines 487–506, `processQueue`: filter the queue down to customers whose
state is `waiting` (a snapshot taken once), run the seating loop, then
rebuild the queue model. -/
def processQueue (sys : CafeSystem) (gameTime : ℚ) (rands : List (ℕ × ℕ × ℕ)) :
    CafeSystem × List WallClockTimer :=
  let waitingCustomers := sys.queue.filter (fun cid =>
    match sys.customerById cid with
    | some c => c.state == .waiting
    | none => false)
  let (sys1, timers) := processQueueLoop gameTime waitingCustomers rands sys
  (sys1.updateQueueModel gameTime, timers)

end CafeSystem

/-! ## The order pipeline -/

/-- The satisfaction adjustment and state change `serveOrder` (lines 575–598)
applies to the customer who placed the order. -/
def serveOrderAdjust (gameTime : ℚ) (o : Order) (c : Customer) : Customer :=
  let c1 := { c with state := .eating, waitStartTime := gameTime }
  let waitTime := (gameTime - o.timePlaced) / 60
  let expectedWaitTime := o.prepTime * 1.5
  if waitTime > expectedWaitTime then
    let waitPenalty := (waitTime - expectedWaitTime) * 5
    { c1 with satisfaction := max 0 (c1.satisfaction - waitPenalty) }
  else
    { c1 with satisfaction := min 100 (c1.satisfaction + 5) }

/-- Lines 575–598, `serveOrder`: find the first customer owning the order;
if present, apply `serveOrderAdjust`. The Boolean records whether a customer
was found — in the source `order.status = served` happens only inside the
`if (customer)` branch, so an order without a present owner stays `ready`. -/
def serveOrder (gameTime : ℚ) (o : Order) (customers : List Customer) :
    List Customer × Bool :=
  (updateFirst (fun c => c.ownsOrder o.oid) (serveOrderAdjust gameTime o) customers,
   customers.any (fun c => c.ownsOrder o.oid))

/-- The promotion loop of `processOrders` (lines 551–561): promote the first
`k` pending orders, in list order — which is placement order, since orders
are only ever appended — to `preparing`, stamping `timeStarted`; non-pending
orders are passed over without consuming the budget. -/
def promoteOrders (gameTime : ℚ) : ℕ → List Order → List Order
  | _, [] => []
  | 0, os => os
  | k + 1, o :: os =>
    if o.status = .pending then
      { o with status := .preparing, timeStarted := gameTime } :: promoteOrders gameTime k os
    else
      o :: promoteOrders gameTime (k + 1) os

/-- One iteration of the completion loop of `processOrders` (lines 564–572)
for the order with identity `oid`: when its prep time has elapsed since
`effectiveStart`, mark it ready with `timeCompleted` stamped and run
`serveOrder`, which upgrades the status to `served` exactly when the owning
customer is present. -/
def completeOrder (gameTime : ℚ) (st : List Order × List Customer) (oid : ℕ) :
    List Order × List Customer :=
  match st.1.find? (fun o => o.oid == oid) with
  | none => st
  | some o =>
    if o.status = .preparing ∧ (gameTime - o.effectiveStart) / 60 ≥ o.prepTime then
      let served := serveOrder gameTime o st.2
      let newStatus : OrderStatus := if served.2 then .served else .ready
      (st.1.map (fun o2 => if o2.oid == oid then
          { o2 with status := newStatus, timeCompleted := gameTime } else o2),
       served.1)
    else st

/-- Lines 545–573, `CafeSystem.processOrders`. First the promotion step with
budget `min(availableServers − preparingCount, pendingCount)` (nothing when
the capacity is full or nothing is pending), then the completion loop over
the snapshot of orders that are `preparing` after promotion. All times come
from `this.game.gameTime`, passed here as `gameTime`. -/
def CafeSystem.processOrders (sys : CafeSystem) (gameTime : ℚ) : CafeSystem :=
  let pendingCount := sys.orders.countP (fun o => o.status == .pending)
  let preparingCount := sys.orders.countP (fun o => o.status == .preparing)
  let k := if preparingCount < sys.availableServers ∧ 0 < pendingCount then
      min (sys.availableServers - preparingCount) pendingCount
    else 0
  let orders1 := promoteOrders gameTime k sys.orders
  let snapshot := (orders1.filter (fun o => o.status == .preparing)).map Order.oid
  let final := snapshot.foldl (completeOrder gameTime) (orders1, sys.customers)
  { sys with orders := final.1, customers := final.2 }

/-! ## Payment and departure handling -/

/-- Lines 666–685, `handlePayment`: adds the payment to the daily earnings
and — directly — to `this.game.playerStats.money`, applies the
satisfaction-derived reputation change clamped to [0,100], and frees the
table (dirty, back-reference cleared on both sides). Returns the updated
system and customer. -/
def CafeSystem.handlePayment (sys : CafeSystem) (c : Customer) (amount tip : ℚ) :
    CafeSystem × Customer :=
  let sys1 := { sys with
    dailyEarnings := sys.dailyEarnings + (amount + tip),
    dailyCustomers := sys.dailyCustomers + 1,
    playerStats := { sys.playerStats with
      money := sys.playerStats.money + (amount + tip) } }
  let repChange : ℚ := (⌊(c.satisfaction - 50) / 10⌋ : ℤ)
  let sys2 := { sys1 with playerStats := { sys1.playerStats with
    reputation := max 0 (min 100 (sys1.playerStats.reputation + repChange)) } }
  match c.table with
  | some tid =>
    (sys2.modifyTable tid (fun t => { t with status := .dirty, customer := none }),
     { c with table := none })
  | none => (sys2, c)

/-- Lines 688–712, `handleCustomerLeave`: reputation penalties — again
applied directly to `this.game.playerStats` — then the table is dirtied (the
customer still holds its back-reference) and the customer is filtered out of
the queue. -/
def CafeSystem.handleCustomerLeave (sys : CafeSystem) (c : Customer)
    (reason : LeaveReason) : CafeSystem :=
  let sys1 :=
    match reason with
    | .waited_too_long => { sys with playerStats := { sys.playerStats with
        reputation := max 0 (sys.playerStats.reputation - 2) } }
    | .no_available_tables => { sys with playerStats := { sys.playerStats with
        reputation := max 0 (sys.playerStats.reputation - 1) } }
    | .paid => sys
  let sys2 :=
    match c.table with
    | some tid => sys1.modifyTable tid
        (fun t => { t with status := .dirty, customer := none })
    | none => sys1
  { sys2 with queue := sys2.queue.filter (fun cid => cid != c.cid) }

/-- The customer phase of `CafeSystem.update` (lines 455–470): the JS loop
walks `this.customers` from the last index down to 0, updating each customer
and, on a terminal event, running the handlers and splicing the customer out.
The handlers touch only tables, queue and player stats, so the loop is the
right-to-left traversal below, returning the surviving customer list and the
threaded system state (whose own `customers` field is set by the wrapper). -/
def CafeSystem.updateCustomersLoop (gameTime timeDelta tipRand : ℚ) :
    List Customer → CafeSystem → List Customer × CafeSystem
  | [], sys => ([], sys)
  | c :: cs, sys =>
    let tailResult := CafeSystem.updateCustomersLoop gameTime timeDelta tipRand cs sys
    let stepped := c.update gameTime timeDelta tipRand
    match stepped.2 with
    | none => (stepped.1 :: tailResult.1, tailResult.2)
    | some (.customer_left reason) =>
      (tailResult.1, tailResult.2.handleCustomerLeave stepped.1 reason)
    | some (.payment_received amount tip) =>
      let paid := tailResult.2.handlePayment stepped.1 amount tip
      (tailResult.1, paid.1.handleCustomerLeave paid.2 .paid)

/-- Wrapper installing the surviving customers computed by
`updateCustomersLoop` (the splices of lines 463 and 467). -/
def CafeSystem.updateCustomers (sys : CafeSystem) (gameTime timeDelta tipRand : ℚ) :
    CafeSystem :=
  let result := CafeSystem.updateCustomersLoop gameTime timeDelta tipRand sys.customers sys
  { result.2 with customers := result.1 }

/-! ## Concrete fixtures used by the closed theorems and witnesses -/

/-- Fixture customer: the student-category base values of `CUSTOMER_TYPES`
with the per-instance random jitter fixed at 1, with the claim-relevant
fields exposed as parameters. -/
def mkCustomer (cid : ℕ) (state : CustomerState)
    (patience satisfaction waitStartTime : ℚ)
    (table : Option ℕ) (order : Option Order) : Customer :=
  { cid := cid, ctype := "student", name := "Student", patience := patience,
    spendingPower := 8, tipMultiplier := 1,
    orderPreferences := ["coffee", "croissant", "muffin"],
    hasSpecialRequest := false, arrivalTime := 0, order := order,
    table := table, state := state, satisfaction := satisfaction,
    waitStartTime := waitStartTime }

/-- Fixture order with the claim-relevant fields exposed as parameters. -/
def mkOrder (oid : ℕ) (status : OrderStatus)
    (totalPrice prepTime timePlaced timeStarted : ℚ) : Order :=
  { oid := oid, item := "coffee", quantity := 1, totalPrice := totalPrice,
    prepTime := prepTime, specialRequest := none, status := status,
    timePlaced := timePlaced, timeStarted := timeStarted, timeCompleted := 0 }

/-- Fixture cafe state: the constructor defaults of `CafeSystem` (two
servers, the starting analytic model) with tables, customers, orders and
queue supplied, and the player holding 100 money and 50 reputation. -/
def mkSystem (tables : List Table) (customers : List Customer)
    (orders : List Order) (queue : List ℕ) : CafeSystem :=
  { tables := tables, customers := customers, orders := orders,
    availableServers := 2, busyServers := 0, queue := queue,
    dailyEarnings := 0, dailyCustomers := 0,
    queueModel := { arrivalRate := 0.5, serviceRate := 0.3, servers := 2 },
    playerStats := { money := 100, reputation := 50 } }



/-! ## Theorems -/

/-- C1: the claim says that for λ/(cμ) ≥ 1 the model yields a distinguished
unstable status and does not compute Lq/Wq, in particular at λ=0.9, μ=0.3,
c=2. The source `QueueingModel` has no such status anywhere — its
constructor unconditionally derives every metric — and at that input it
computes ρ = 3/2 ≥ 1 together with the meaningless negative values
P₀ = −1/5, Lq = −27/5 and Wq = −6, which this theorem evaluates. -/
theorem queueing_model_rho_ge_one_computes_negative_metrics :
    (QueueingModel.mk (9/10) (3/10) 2).calculateTrafficIntensity = 3/2 ∧
    (1 : ℚ) ≤ (QueueingModel.mk (9/10) (3/10) 2).calculateTrafficIntensity ∧
    (QueueingModel.mk (9/10) (3/10) 2).calculateProbabilityZero = -(1/5) ∧
    (QueueingModel.mk (9/10) (3/10) 2).calculateProbabilityZero < 0 ∧
    (QueueingModel.mk (9/10) (3/10) 2).calculateAverageQueueLength = -(27/5) ∧
    (QueueingModel.mk (9/10) (3/10) 2).calculateAverageTimeInQueue = -6 := by
  refine ⟨by norm_num [QueueingModel.calculateTrafficIntensity], ?_, ?_, ?_, ?_, ?_⟩ <;>
    norm_num [QueueingModel.calculateAverageTimeInQueue,
      QueueingModel.calculateAverageQueueLength,
      QueueingModel.calculateProbabilityZero,
      QueueingModel.calculateTrafficIntensity, Finset.sum_range_succ,
      Nat.factorial]

/-- C2: for λ=0.5, μ=0.3, c=2 the derived metrics equal the M/M/c closed
forms within ±0.01: the exact rational values are ρ = 5/6, P₀ = 1/11,
Lq = 125/33 and Wq = 250/33, each within 0.01 of the quoted 0.8333, 0.0909,
3.79 and 7.57 (minutes). -/
theorem queueing_model_closed_form_check :
    (QueueingModel.mk (1/2) (3/10) 2).calculateTrafficIntensity = 5/6 ∧
    |(QueueingModel.mk (1/2) (3/10) 2).calculateTrafficIntensity - 0.8333| ≤ 0.01 ∧
    (QueueingModel.mk (1/2) (3/10) 2).calculateProbabilityZero = 1/11 ∧
    |(QueueingModel.mk (1/2) (3/10) 2).calculateProbabilityZero - 0.0909| ≤ 0.01 ∧
    (QueueingModel.mk (1/2) (3/10) 2).calculateAverageQueueLength = 125/33 ∧
    |(QueueingModel.mk (1/2) (3/10) 2).calculateAverageQueueLength - 3.79| ≤ 0.01 ∧
    (QueueingModel.mk (1/2) (3/10) 2).calculateAverageTimeInQueue = 250/33 ∧
    |(QueueingModel.mk (1/2) (3/10) 2).calculateAverageTimeInQueue - 7.57| ≤ 0.01 := by
  refine ⟨?_, ?_, ?_, ?_, ?_, ?_, ?_, ?_⟩ <;>
    norm_num [QueueingModel.calculateAverageTimeInQueue,
      QueueingModel.calculateAverageQueueLength,
      QueueingModel.calculateProbabilityZero,
      QueueingModel.calculateTrafficIntensity, Finset.sum_range_succ,
      Nat.factorial, abs_le]


/-- C3 counterexample: the claim says the core only returns terminal events
and never itself mutates the player money or reputation. Running the
customer phase of the tick (`updateCustomers`, the loop of
`CafeSystem.update`) on a single paying customer whose one-minute dwell has
elapsed changes the player money from 100 to 111 and the reputation from 50
to 55: the handlers `handlePayment` and `handleCustomerLeave` are invoked
inside the core and apply the updates directly, and no event survives to be
returned. -/
theorem core_mutates_player_stats_counterexample :
    ((mkSystem [] [mkCustomer 0 .paying 10 100 0 none
        (some (mkOrder 0 .served 10 2 0 0))] [] []).updateCustomers 100 1 0).playerStats.money
      = 111 ∧
    ((mkSystem [] [mkCustomer 0 .paying 10 100 0 none
        (some (mkOrder 0 .served 10 2 0 0))] [] []).updateCustomers 100 1 0).playerStats.reputation
      = 55 ∧
    (mkSystem [] [mkCustomer 0 .paying 10 100 0 none
        (some (mkOrder 0 .served 10 2 0 0))] [] []).playerStats.money = 100 ∧
    (mkSystem [] [mkCustomer 0 .paying 10 100 0 none
        (some (mkOrder 0 .served 10 2 0 0))] [] []).playerStats.reputation = 50 := by
  refine ⟨?_, ?_, rfl, rfl⟩ <;>
    · simp only [mkSystem, mkCustomer, mkOrder, CafeSystem.updateCustomers,
        CafeSystem.updateCustomersLoop, Customer.update, Customer.calculateTip,
        CafeSystem.handlePayment, CafeSystem.handleCustomerLeave,
        CafeSystem.modifyTable, updateFirst]
      norm_num

/-- C3 amended: the core applies money and reputation changes directly
rather than surfacing events to collaborators. `handlePayment` adds
`amount + tip` to the player money and applies the satisfaction-derived
reputation change `⌊(satisfaction − 50)/10⌋` clamped to [0,100], and
`handleCustomerLeave` applies the reputation penalties (−2 for
waited_too_long, −1 for no_available_tables) floored at 0, all on the
player-stats record owned by the game engine. -/
theorem core_applies_money_and_reputation_directly
    (sys : CafeSystem) (c : Customer) (amount tip : ℚ) :
    (sys.handlePayment c amount tip).1.playerStats.money
        = sys.playerStats.money + (amount + tip) ∧
    (sys.handlePayment c amount tip).1.playerStats.reputation
        = max 0 (min 100 (sys.playerStats.reputation
            + ((⌊(c.satisfaction - 50) / 10⌋ : ℤ) : ℚ))) ∧
    (sys.handleCustomerLeave c .waited_too_long).playerStats.reputation
        = max 0 (sys.playerStats.reputation - 2) ∧
    (sys.handleCustomerLeave c .no_available_tables).playerStats.reputation
        = max 0 (sys.playerStats.reputation - 1) := by
  refine ⟨?_, ?_, ?_, ?_⟩ <;>
    · cases h : c.table <;>
        simp [CafeSystem.handlePayment, CafeSystem.handleCustomerLeave,
          CafeSystem.modifyTable, h]

/-- C4 counterexample: the claim says a dirty seat becomes assignable again
only after the fixed cleaning delay has elapsed in simulated time, never
before. In the source the delay is a `setTimeout(…, 3000)` wall-clock timer:
starting from a dirty table at simulated time 0, `seatCustomer` switches it
to `cleaning` and schedules the 3000 ms wall-clock callback, and firing that
callback — `fireCleaningTimer` takes no simulated-time argument because the
JS callback reads no simulated clock — makes the table `empty` and hence
returned by `findAvailableTable`, while the simulated clock still reads 0:
zero simulated minutes of cleaning delay have elapsed. -/
theorem seat_cleaning_ignores_simulated_time_counterexample :
    ((mkSystem [⟨0, none, .dirty, 0⟩] [mkCustomer 0 .waiting 10 100 0 none none]
        [] [0]).seatCustomer 0 0 0 0 0 0).2.1 = false ∧
    (((mkSystem [⟨0, none, .dirty, 0⟩] [mkCustomer 0 .waiting 10 100 0 none none]
        [] [0]).seatCustomer 0 0 0 0 0 0).1.tableById 0).map Table.status
      = some .cleaning ∧
    ((mkSystem [⟨0, none, .dirty, 0⟩] [mkCustomer 0 .waiting 10 100 0 none none]
        [] [0]).seatCustomer 0 0 0 0 0 0).2.2 = [⟨0, 3000⟩] ∧
    ((((mkSystem [⟨0, none, .dirty, 0⟩] [mkCustomer 0 .waiting 10 100 0 none none]
        [] [0]).seatCustomer 0 0 0 0 0 0).1.fireCleaningTimer ⟨0, 3000⟩).tableById 0).map
          Table.status = some .empty ∧
    (((mkSystem [⟨0, none, .dirty, 0⟩] [mkCustomer 0 .waiting 10 100 0 none none]
        [] [0]).seatCustomer 0 0 0 0 0 0).1.fireCleaningTimer ⟨0, 3000⟩).findAvailableTable
      = some ⟨0, none, .empty, 0⟩ := by
  refine ⟨?_, ?_, ?_, ?_, ?_⟩ <;>
    simp [mkSystem, mkCustomer, CafeSystem.seatCustomer, CafeSystem.tableById,
      CafeSystem.fireCleaningTimer, CafeSystem.modifyTable, updateFirst,
      CafeSystem.findAvailableTable, List.find?]

/-- C4 amended: a dirty seat is never handed to a customer — `seatCustomer`
on a dirty table refuses (returns false, customers untouched), performing
only the dirty → cleaning transition — but the cleaning → empty transition
is driven by a 3000 ms wall-clock `setTimeout`, independent of the simulated
clock, so the seat can become assignable again before any simulated cleaning
delay has elapsed. -/
theorem dirty_table_never_seated_and_cleaning_is_wall_clock
    (sys : CafeSystem) (gameTime : ℚ) (cid tid r1 r2 r3 : ℕ) (t : Table)
    (ht : sys.tableById tid = some t) (hd : t.status = .dirty) :
    (sys.seatCustomer gameTime cid tid r1 r2 r3).2.1 = false ∧
    (sys.seatCustomer gameTime cid tid r1 r2 r3).1.customers = sys.customers ∧
    (sys.seatCustomer gameTime cid tid r1 r2 r3).1.tables
      = updateFirst (fun tb => tb.tid == tid)
          (fun tb => { tb with status := .cleaning }) sys.tables ∧
    (sys.seatCustomer gameTime cid tid r1 r2 r3).2.2 = [{ tid := tid, delayMs := 3000 }] ∧
    (∀ (sys2 : CafeSystem) (timer : WallClockTimer),
       (sys2.fireCleaningTimer timer).tables
         = updateFirst (fun tb => tb.tid == timer.tid)
             (fun tb => { tb with status := .empty }) sys2.tables) := by
  refine ⟨?_, ?_, ?_, ?_, fun sys2 timer => rfl⟩ <;>
    simp [CafeSystem.seatCustomer, ht, hd, CafeSystem.modifyTable]

/-- Witness for the dirty-table seating theorem at a concrete state: one
dirty table, one waiting customer. -/
theorem dirty_table_never_seated_witness :
    ((mkSystem [⟨3, none, .dirty, 0⟩] [mkCustomer 0 .waiting 10 100 0 none none]
        [] [0]).seatCustomer 60 0 3 1 2 3).2.1 = false ∧
    ((mkSystem [⟨3, none, .dirty, 0⟩] [mkCustomer 0 .waiting 10 100 0 none none]
        [] [0]).seatCustomer 60 0 3 1 2 3).1.customers
      = [mkCustomer 0 .waiting 10 100 0 none none] ∧
    ((mkSystem [⟨3, none, .dirty, 0⟩] [mkCustomer 0 .waiting 10 100 0 none none]
        [] [0]).seatCustomer 60 0 3 1 2 3).1.tables
      = updateFirst (fun tb => tb.tid == 3)
          (fun tb => { tb with status := .cleaning })
          [⟨3, none, .dirty, 0⟩] ∧
    ((mkSystem [⟨3, none, .dirty, 0⟩] [mkCustomer 0 .waiting 10 100 0 none none]
        [] [0]).seatCustomer 60 0 3 1 2 3).2.2 = [{ tid := 3, delayMs := 3000 }] := by
  have h := dirty_table_never_seated_and_cleaning_is_wall_clock
    (mkSystem [⟨3, none, .dirty, 0⟩] [mkCustomer 0 .waiting 10 100 0 none none] [] [0])
    60 0 3 1 2 3 ⟨3, none, .dirty, 0⟩ (by rfl) rfl
  exact ⟨h.1, h.2.1.trans (by rfl), h.2.2.1, h.2.2.2.1⟩

/-- C6: a queued customer (state `waiting`, no seat) abandons exactly at the
first tick at which the simulated wait since `waitStartTime` exceeds the
patience, in minutes: the update emits `customer_left waited_too_long` and
moves the state to `leaving` precisely when `(gameTime − waitStartTime)/60 >
patience`, emits nothing and stays `waiting` otherwise, and the transition
happens only once — a customer in the `leaving` state is never touched again
by `update` (and the surrounding loop splices the customer out on the same
tick). -/
theorem queued_customer_abandons_exactly_once
    (c : Customer) (gameTime timeDelta tipRand : ℚ) (hw : c.state = .waiting) :
    ((gameTime - c.waitStartTime) / 60 > c.patience →
       (c.update gameTime timeDelta tipRand).2
           = some (.customer_left .waited_too_long) ∧
       (c.update gameTime timeDelta tipRand).1.state = .leaving) ∧
    ((gameTime - c.waitStartTime) / 60 ≤ c.patience →
       (c.update gameTime timeDelta tipRand).2 = none ∧
       (c.update gameTime timeDelta tipRand).1.state = .waiting) ∧
    (∀ (c2 : Customer) (t2 d2 r2 : ℚ), c2.state = .leaving →
       c2.update t2 d2 r2 = (c2, none)) := by
  refine ⟨fun hgt => ?_, fun hle => ?_, fun c2 t2 d2 r2 h2 => ?_⟩
  · simp [Customer.update, hw, hgt]
  · simp [Customer.update, hw, hle, not_lt.mpr hle]
  · cases c2 with
    | mk cid ctype name patience spend tipm prefs special arr ord tbl st sat wst =>
      cases h2
      simp [Customer.update]

/-- Witness for the abandonment theorem: patience 5 minutes, wait started at
simulated second 0, tick at second 301 (just over 5 simulated minutes). -/
theorem queued_customer_abandons_witness :
    ((mkCustomer 7 .waiting 5 100 0 none none).update 301 1 0).2
        = some (.customer_left .waited_too_long) ∧
    ((mkCustomer 7 .waiting 5 100 0 none none).update 301 1 0).1.state = .leaving := by
  exact (queued_customer_abandons_exactly_once
    (mkCustomer 7 .waiting 5 100 0 none none) 301 1 0 rfl).1 (by norm_num [mkCustomer])

/-- C7: every satisfaction mutation stays inside [0,100]. Given a customer
whose satisfaction is in [0,100], a tick with nonnegative `timeDelta` whose
`gameTime` is not before `waitStartTime` leaves the satisfaction in [0,100]
after `Customer.update` (waiting decay, eating recovery) and after the
serving penalty/bonus adjustment of `serveOrder`; any sequence of ticks
preserves the interval by induction on this statement. -/
theorem satisfaction_stays_in_unit_range
    (c : Customer) (gameTime timeDelta tipRand : ℚ) (o : Order)
    (h0 : 0 ≤ c.satisfaction) (h100 : c.satisfaction ≤ 100)
    (hwait : c.waitStartTime ≤ gameTime) (hdelta : 0 ≤ timeDelta) :
    (0 ≤ (c.update gameTime timeDelta tipRand).1.satisfaction ∧
     (c.update gameTime timeDelta tipRand).1.satisfaction ≤ 100) ∧
    (0 ≤ (serveOrderAdjust gameTime o c).satisfaction ∧
     (serveOrderAdjust gameTime o c).satisfaction ≤ 100) := by
  have hw : (0 : ℚ) ≤ (gameTime - c.waitStartTime) / 60 :=
    div_nonneg (by linarith) (by norm_num)
  have hw5 : (0 : ℚ) ≤ (gameTime - c.waitStartTime) / 60 * 5 :=
    mul_nonneg hw (by norm_num)
  have hd5 : (0 : ℚ) ≤ timeDelta * 0.5 := mul_nonneg hdelta (by norm_num)
  constructor
  · cases hst : c.state with
    | waiting =>
        simp only [Customer.update, hst]
        split <;>
          exact ⟨le_max_left _ _, max_le (by norm_num) (by linarith)⟩
    | waiting_for_order =>
        simp only [Customer.update, hst]
        split <;>
          exact ⟨le_max_left _ _, max_le (by norm_num) (by linarith)⟩
    | eating =>
        simp only [Customer.update, hst]
        split <;>
          exact ⟨le_min (by norm_num) (by linarith), min_le_left _ _⟩
    | paying =>
        simp only [Customer.update, hst]
        split <;> exact ⟨h0, h100⟩
    | entering => simp only [Customer.update, hst]; exact ⟨h0, h100⟩
    | ordering => simp only [Customer.update, hst]; exact ⟨h0, h100⟩
    | leaving => simp only [Customer.update, hst]; exact ⟨h0, h100⟩
  · simp only [serveOrderAdjust]
    split
    · rename_i hcond
      have hpen : (0 : ℚ) ≤ ((gameTime - o.timePlaced) / 60 - o.prepTime * 1.5) * 5 :=
        mul_nonneg (by linarith) (by norm_num)
      exact ⟨le_max_left _ _, max_le (by norm_num) (by linarith)⟩
    · exact ⟨le_min (by norm_num) (by linarith), min_le_left _ _⟩

/-- Witness for the satisfaction clamp theorem: an eating customer at
satisfaction 99 with a large tick stays at most 100 and at least 0. -/
theorem satisfaction_stays_in_unit_range_witness :
    (0 ≤ ((mkCustomer 3 .eating 10 99 0 none none).update 30 10 0).1.satisfaction ∧
     ((mkCustomer 3 .eating 10 99 0 none none).update 30 10 0).1.satisfaction ≤ 100) ∧
    (0 ≤ (serveOrderAdjust 30 (mkOrder 0 .ready 10 2 0 0)
            (mkCustomer 3 .eating 10 99 0 none none)).satisfaction ∧
     (serveOrderAdjust 30 (mkOrder 0 .ready 10 2 0 0)
            (mkCustomer 3 .eating 10 99 0 none none)).satisfaction ≤ 100) := by
  exact satisfaction_stays_in_unit_range (mkCustomer 3 .eating 10 99 0 none none)
    30 10 0 (mkOrder 0 .ready 10 2 0 0) (by norm_num [mkCustomer])
    (by norm_num [mkCustomer]) (by norm_num [mkCustomer]) (by norm_num)

/-- Helper: element-wise characterization of the promotion loop — entry `i`
is promoted exactly when it is pending and fewer than `k` pending entries
precede it; promoted entries get `timeStarted` stamped. -/
theorem promoteOrders_getElem (t : ℚ) (k : ℕ) (os : List Order) (i : ℕ) :
    (promoteOrders t k os)[i]? = (os[i]?).map (fun o =>
      if o.status = .pending ∧
         (os.take i).countP (fun o2 => o2.status == .pending) < k
      then { o with status := .preparing, timeStarted := t } else o) := by
  induction os generalizing k i with
  | nil => cases k <;> simp [promoteOrders]
  | cons o rest ih =>
    cases k with
    | zero =>
      simp only [promoteOrders, Nat.not_lt_zero, and_false, if_false]
      cases h : (o :: rest)[i]? <;> simp
    | succ k =>
      by_cases hp : o.status = OrderStatus.pending
      · cases i with
        | zero => simp [promoteOrders, hp]
        | succ i =>
          simp only [promoteOrders, hp, if_true, List.getElem?_cons_succ,
            List.take_succ_cons, List.countP_cons, hp, beq_self_eq_true,
            if_pos, ih k i]
          have : ∀ n, n + 1 < k + 1 ↔ n < k := fun n => Nat.succ_lt_succ_iff
          simp [this]
      · cases i with
        | zero => simp [promoteOrders, hp]
        | succ i =>
          have hb : (o.status == OrderStatus.pending) = false := by
            simp [hp]
          simp only [promoteOrders, hp, if_false, List.getElem?_cons_succ,
            List.take_succ_cons, List.countP_cons, hb, ih (k + 1) i]
          simp

/-- Helper: the promotion loop raises the preparing count by exactly
`min k pendingCount`. -/
theorem countP_preparing_promoteOrders (t : ℚ) (k : ℕ) (os : List Order) :
    (promoteOrders t k os).countP (fun o => o.status == .preparing)
      = os.countP (fun o => o.status == .preparing)
        + min k (os.countP (fun o => o.status == .pending)) := by
  induction os generalizing k with
  | nil => cases k <;> simp [promoteOrders]
  | cons o rest ih =>
    cases k with
    | zero => simp [promoteOrders]
    | succ k =>
      by_cases hp : o.status = OrderStatus.pending
      · have hnotprep : (o.status == OrderStatus.preparing) = false := by simp [hp]
        simp only [promoteOrders, hp, if_true, List.countP_cons, hnotprep,
          beq_self_eq_true, ih k]
        simp [Nat.succ_min_succ, hp]
        omega
      · have hb : (o.status == OrderStatus.pending) = false := by simp [hp]
        simp only [promoteOrders, hp, if_false, List.countP_cons, hb, ih (k + 1)]
        simp
        omega

/-- Helper: mapping a function that can only falsify a predicate does not
increase the count. -/
theorem countP_map_le_of_cond {α : Type} (p : α → Bool) (f : α → α)
    (l : List α) (h : ∀ x ∈ l, p (f x) = true → p x = true) :
    (l.map f).countP p ≤ l.countP p := by
  rw [List.countP_map]
  exact List.countP_mono_left (fun x hx hpx => h x hx hpx)

/-- Helper: a completion step never increases the preparing count (it only
moves orders to ready or served). -/
theorem countP_preparing_completeOrder_le (t : ℚ)
    (st : List Order × List Customer) (oid : ℕ) :
    (completeOrder t st oid).1.countP (fun o => o.status == .preparing)
      ≤ st.1.countP (fun o => o.status == .preparing) := by
  unfold completeOrder
  cases hf : st.1.find? (fun o => o.oid == oid) with
  | none => simp
  | some o =>
    simp only
    split
    · simp only
      apply countP_map_le_of_cond
      intro x _ hx
      by_cases hid : (x.oid == oid) = true
      · exfalso
        rw [if_pos hid] at hx
        rcases h2 : (serveOrder t o st.2).2 <;> simp [h2] at hx
      · rw [if_neg hid] at hx
        exact hx
    · exact le_refl _

/-- Helper: the whole completion fold never increases the preparing count. -/
theorem countP_preparing_foldl_completeOrder_le (t : ℚ) (snapshot : List ℕ)
    (st : List Order × List Customer) :
    (snapshot.foldl (completeOrder t) st).1.countP (fun o => o.status == .preparing)
      ≤ st.1.countP (fun o => o.status == .preparing) := by
  induction snapshot generalizing st with
  | nil => simp
  | cons oid rest ih =>
    simp only [List.foldl_cons]
    exact le_trans (ih _) (countP_preparing_completeOrder_le t st oid)

/-- C8: if the preparing count respects the server capacity before the tick,
it still does after `processOrders` — the promotion step raises it by
exactly `min budget pendingCount` with budget
`min (availableServers − preparingCount) pendingCount` (hence by at most
`availableServers − preparingCount`), and the completion loop only lowers
it; moreover promotion is FIFO in list order (which is placement order,
orders being append-only): entry `i` is promoted exactly when it is pending
and fewer than `budget` pending entries precede it, with `timeStarted`
stamped to the current time. -/
theorem preparing_orders_bounded_by_capacity (sys : CafeSystem) (gameTime : ℚ)
    (hinv : sys.orders.countP (fun o => o.status == .preparing)
      ≤ sys.availableServers) :
    ((sys.processOrders gameTime).orders.countP (fun o => o.status == .preparing)
        ≤ sys.availableServers) ∧
    (∀ (k : ℕ) (os : List Order),
      (promoteOrders gameTime k os).countP (fun o => o.status == .preparing)
        = os.countP (fun o => o.status == .preparing)
          + min k (os.countP (fun o => o.status == .pending))) ∧
    (∀ (k : ℕ) (os : List Order) (i : ℕ),
      (promoteOrders gameTime k os)[i]? = (os[i]?).map (fun o =>
        if o.status = .pending ∧
           (os.take i).countP (fun o2 => o2.status == .pending) < k
        then { o with status := .preparing, timeStarted := gameTime } else o)) := by
  refine ⟨?_, fun k os => countP_preparing_promoteOrders gameTime k os,
    fun k os i => promoteOrders_getElem gameTime k os i⟩
  show (((((promoteOrders gameTime _ sys.orders).filter
      (fun o => o.status == .preparing)).map Order.oid).foldl
        (completeOrder gameTime)
        (promoteOrders gameTime _ sys.orders, sys.customers)).1.countP
          (fun o => o.status == .preparing)) ≤ sys.availableServers
  refine le_trans (countP_preparing_foldl_completeOrder_le _ _ _) ?_
  rw [countP_preparing_promoteOrders]
  by_cases hg : sys.orders.countP (fun o => o.status == .preparing)
      < sys.availableServers ∧ 0 < sys.orders.countP (fun o => o.status == .pending)
  · rw [if_pos hg]
    omega
  · rw [if_neg hg]
    omega

/-- Witness for the capacity bound: three pending orders, two servers — the
tick leaves at most two orders preparing. -/
theorem preparing_orders_bounded_witness :
    ((mkSystem [] [] [mkOrder 0 .pending 3.5 2 10 0, mkOrder 1 .pending 3.5 2 20 0,
        mkOrder 2 .pending 3.5 2 30 0] []).processOrders 100).orders.countP
      (fun o => o.status == .preparing) ≤ 2 := by
  exact (preparing_orders_bounded_by_capacity
    (mkSystem [] [] [mkOrder 0 .pending 3.5 2 10 0, mkOrder 1 .pending 3.5 2 20 0,
        mkOrder 2 .pending 3.5 2 30 0] []) 100 (by simp [mkSystem, mkOrder])).1

/-- Helper: with pairwise distinct order identities, `find?` by the identity
of a member returns that member. -/
theorem find?_oid_of_nodup_mem (l : List Order) (o : Order)
    (hnd : (l.map Order.oid).Nodup) (ho : o ∈ l) :
    l.find? (fun x => x.oid == o.oid) = some o := by
  induction l with
  | nil => cases ho
  | cons x rest ih =>
    have hnd2 : (∀ y ∈ rest, ¬ y.oid = x.oid) ∧ (rest.map Order.oid).Nodup := by
      simpa using hnd
    rcases List.mem_cons.mp ho with rfl | hmem
    · exact List.find?_cons_of_pos _ (by simp)
    · rw [List.find?_cons_of_neg _ (by simp [Ne.symm (hnd2.1 o hmem)])]
      exact ih (by simpa using hnd2.2) hmem

/-- Helper: promotion touches only pending orders, so `find?` by the
identity of a non-pending member is unchanged. -/
theorem find?_promoteOrders_of_nonpending (t : ℚ) (k : ℕ) (os : List Order)
    (o : Order) (hfind : os.find? (fun x => x.oid == o.oid) = some o)
    (hnp : o.status ≠ .pending) :
    (promoteOrders t k os).find? (fun x => x.oid == o.oid) = some o := by
  induction os generalizing k with
  | nil => simp at hfind
  | cons x rest ih =>
    cases k with
    | zero => simpa [promoteOrders] using hfind
    | succ k =>
      by_cases hb : (x.oid == o.oid) = true
      · rw [List.find?_cons_of_pos _ (by exact hb)] at hfind
        have hxo : x = o := Option.some.inj hfind
        subst hxo
        rw [promoteOrders, if_neg hnp]
        exact List.find?_cons_of_pos _ (by exact hb)
      · rw [List.find?_cons_of_neg _ (by exact hb)] at hfind
        rw [promoteOrders]
        by_cases hp : x.status = OrderStatus.pending
        · rw [if_pos hp]
          rw [List.find?_cons_of_neg _ (by simpa using hb)]
          exact ih k hfind
        · rw [if_neg hp]
          rw [List.find?_cons_of_neg _ (by exact hb)]
          exact ih (k + 1) hfind

/-- Helper: promotion preserves the identity sequence of the order list. -/
theorem promoteOrders_map_oid (t : ℚ) (k : ℕ) (os : List Order) :
    (promoteOrders t k os).map Order.oid = os.map Order.oid := by
  induction os generalizing k with
  | nil => cases k <;> simp [promoteOrders]
  | cons x rest ih =>
    cases k with
    | zero => simp [promoteOrders]
    | succ k =>
      by_cases hp : x.status = OrderStatus.pending <;>
        simp [promoteOrders, hp, ih]

/-- Helper: mapping an identity-preserving function through a list commutes
with `find?` by identity. -/
theorem find?_oid_map (l : List Order) (f : Order → Order) (tid : ℕ) (o : Order)
    (hoid : ∀ x, (f x).oid = x.oid)
    (hf : l.find? (fun x => x.oid == tid) = some o) :
    (l.map f).find? (fun x => x.oid == tid) = some (f o) := by
  induction l with
  | nil => simp at hf
  | cons x rest ih =>
    by_cases hb : (x.oid == tid) = true
    · rw [List.find?_cons_of_pos _ (by exact hb)] at hf
      obtain rfl := Option.some.inj hf
      simp only [List.map_cons]
      rw [List.find?_cons_of_pos _ (by simpa [hoid] using hb)]
    · rw [List.find?_cons_of_neg _ (by exact hb)] at hf
      simp only [List.map_cons]
      rw [List.find?_cons_of_neg _ (by simpa [hoid] using hb)]
      exact ih hf

/-- Helper: the serving adjustment touches state, wait timer and
satisfaction, never the order reference. -/
theorem serveOrderAdjust_order (t : ℚ) (o : Order) (c : Customer) :
    (serveOrderAdjust t o c).order = c.order := by
  simp only [serveOrderAdjust]
  split <;> rfl

/-- Helper: order ownership is invariant under the serving adjustment. -/
theorem ownsOrder_serveOrderAdjust (t : ℚ) (o : Order) (c : Customer) (k : ℕ) :
    (serveOrderAdjust t o c).ownsOrder k = c.ownsOrder k := by
  unfold Customer.ownsOrder
  rw [serveOrderAdjust_order]

/-- Helper: `List.any` is invariant under `updateFirst` with a pointwise
predicate-preserving function. -/
theorem any_updateFirst_of_pres {α : Type} (p q : α → Bool) (f : α → α)
    (l : List α) (h : ∀ x, p (f x) = p x) :
    (updateFirst q f l).any p = l.any p := by
  induction l with
  | nil => rfl
  | cons x rest ih =>
    simp only [updateFirst]
    by_cases hq : q x = true
    · simp [hq, List.any_cons, h]
    · simp [hq, List.any_cons, ih]

/-- Helper: a completion step for a different order identity neither moves
the tracked order nor loses the presence of its owner. -/
theorem completeOrder_preserves_other (t : ℚ) (tid oid2 : ℕ) (hne : oid2 ≠ tid)
    (ver : Order) (st : List Order × List Customer)
    (h1 : st.1.find? (fun x => x.oid == tid) = some ver)
    (h2 : st.2.any (fun c => c.ownsOrder tid) = true) :
    (completeOrder t st oid2).1.find? (fun x => x.oid == tid) = some ver ∧
    (completeOrder t st oid2).2.any (fun c => c.ownsOrder tid) = true := by
  have hver : ver.oid = tid := by
    have := List.find?_some h1
    simpa using this
  unfold completeOrder
  cases hf : st.1.find? (fun o => o.oid == oid2) with
  | none => exact ⟨h1, h2⟩
  | some o2 =>
    simp only
    split
    · constructor
      · have hmap := find?_oid_map st.1
          (fun o3 => if o3.oid == oid2 then
            { o3 with
              status := if (serveOrder t o2 st.2).2 then OrderStatus.served
                else OrderStatus.ready,
              timeCompleted := t } else o3) tid ver
          (fun x => by by_cases hx : (x.oid == oid2) = true <;> simp [hx]) h1
        rw [hmap]
        have hvx : (ver.oid == oid2) = false := by
          rw [hver, beq_eq_false_iff_ne]
          exact fun h => hne h.symm
        simp [hvx]
      · show ((serveOrder t o2 st.2).1.any (fun c => c.ownsOrder tid)) = true
        rw [serveOrder]
        rw [any_updateFirst_of_pres _ _ _ _
          (fun c => ownsOrder_serveOrderAdjust t o2 c tid)]
        exact h2
    · exact ⟨h1, h2⟩

/-- Helper: the completion step for the tracked order itself, when its prep
time has elapsed and its owner is present, marks it served with
`timeCompleted` stamped, keeping the owner present. -/
theorem completeOrder_target_served (t : ℚ) (tid : ℕ) (ver : Order)
    (st : List Order × List Customer)
    (h1 : st.1.find? (fun x => x.oid == tid) = some ver)
    (h2 : st.2.any (fun c => c.ownsOrder tid) = true)
    (hst : ver.status = .preparing)
    (helapsed : (t - ver.effectiveStart) / 60 ≥ ver.prepTime) :
    (completeOrder t st tid).1.find? (fun x => x.oid == tid)
        = some { ver with status := .served, timeCompleted := t } ∧
    (completeOrder t st tid).2.any (fun c => c.ownsOrder tid) = true := by
  have hver : ver.oid = tid := by
    have := List.find?_some h1
    simpa using this
  have hfound : (serveOrder t ver st.2).2 = true := by
    rw [serveOrder]
    simpa [hver] using h2
  unfold completeOrder
  rw [h1]
  simp only
  rw [if_pos ⟨hst, helapsed⟩]
  constructor
  · have hmap := find?_oid_map st.1
      (fun o3 => if o3.oid == tid then
        { o3 with
          status := if (serveOrder t ver st.2).2 then OrderStatus.served
            else OrderStatus.ready,
          timeCompleted := t } else o3) tid ver
      (fun x => by by_cases hx : (x.oid == tid) = true <;> simp [hx]) h1
    rw [hmap]
    have hvx : (ver.oid == tid) = true := by simp [hver]
    simp [hvx, hfound]
  · show ((serveOrder t ver st.2).1.any (fun c => c.ownsOrder tid)) = true
    rw [serveOrder]
    rw [any_updateFirst_of_pres _ _ _ _
      (fun c => ownsOrder_serveOrderAdjust t ver c tid)]
    exact h2

/-- Helper: the completion step for the tracked order does nothing while its
prep time has not yet elapsed. -/
theorem completeOrder_target_early (t : ℚ) (tid : ℕ) (ver : Order)
    (st : List Order × List Customer)
    (h1 : st.1.find? (fun x => x.oid == tid) = some ver)
    (hlt : (t - ver.effectiveStart) / 60 < ver.prepTime) :
    completeOrder t st tid = st := by
  unfold completeOrder
  rw [h1]
  simp only
  rw [if_neg]
  rintro ⟨-, hge⟩
  exact absurd hge (not_le.mpr hlt)

/-- Helper: the completion fold over identities avoiding the tracked one
keeps the tracked order and its owner in place. -/
theorem foldl_completeOrder_invariant (t : ℚ) (tid : ℕ) (ver : Order)
    (ids : List ℕ) (hnot : tid ∉ ids) :
    ∀ (st : List Order × List Customer),
      st.1.find? (fun x => x.oid == tid) = some ver →
      st.2.any (fun c => c.ownsOrder tid) = true →
      (ids.foldl (completeOrder t) st).1.find? (fun x => x.oid == tid) = some ver ∧
      (ids.foldl (completeOrder t) st).2.any (fun c => c.ownsOrder tid) = true := by
  induction ids with
  | nil => exact fun st h1 h2 => ⟨h1, h2⟩
  | cons oid2 rest ih =>
    intro st h1 h2
    have hne : oid2 ≠ tid := fun h => hnot (h ▸ List.mem_cons_self _ _)
    have step := completeOrder_preserves_other t tid oid2 hne ver st h1 h2
    simpa only [List.foldl_cons] using
      ih (fun h => hnot (List.mem_cons_of_mem _ h)) _ step.1 step.2

/-- Helper: the promotion-then-completion pipeline of `processOrders`, run
with any promotion budget `k`, serves a tracked preparing order with a
present owner exactly when its prep time has elapsed, and leaves it
untouched otherwise. -/
theorem fold_serves_target (gameTime : ℚ) (orders : List Order)
    (customers : List Customer) (k : ℕ) (o : Order)
    (hnd : (orders.map Order.oid).Nodup) (ho : o ∈ orders)
    (hprep : o.status = .preparing)
    (howner : customers.any (fun c => c.ownsOrder o.oid) = true) :
    ((gameTime - o.effectiveStart) / 60 ≥ o.prepTime →
       ((((promoteOrders gameTime k orders).filter
           (fun o2 => o2.status == .preparing)).map Order.oid).foldl
             (completeOrder gameTime)
             (promoteOrders gameTime k orders, customers)).1.find?
         (fun x => x.oid == o.oid)
         = some { o with status := .served, timeCompleted := gameTime }) ∧
    ((gameTime - o.effectiveStart) / 60 < o.prepTime →
       ((((promoteOrders gameTime k orders).filter
           (fun o2 => o2.status == .preparing)).map Order.oid).foldl
             (completeOrder gameTime)
             (promoteOrders gameTime k orders, customers)).1.find?
         (fun x => x.oid == o.oid) = some o) := by
  have hfind0 : orders.find? (fun x => x.oid == o.oid) = some o :=
    find?_oid_of_nodup_mem orders o hnd ho
  have hfind1 : (promoteOrders gameTime k orders).find?
      (fun x => x.oid == o.oid) = some o :=
    find?_promoteOrders_of_nonpending gameTime k orders o hfind0 (by simp [hprep])
  have ho1 : o ∈ promoteOrders gameTime k orders :=
    List.mem_of_find?_eq_some hfind1
  have hmem : o.oid ∈ ((promoteOrders gameTime k orders).filter
      (fun o2 => o2.status == .preparing)).map Order.oid :=
    List.mem_map_of_mem _ (List.mem_filter.mpr ⟨ho1, by simp [hprep]⟩)
  have hndsnap : (((promoteOrders gameTime k orders).filter
      (fun o2 => o2.status == .preparing)).map Order.oid).Nodup := by
    have hmo : ((promoteOrders gameTime k orders).map Order.oid).Nodup := by
      rw [promoteOrders_map_oid]
      exact hnd
    exact hmo.sublist ((List.filter_sublist _).map _)
  obtain ⟨s1, s2, hsplit⟩ := List.append_of_mem hmem
  rw [hsplit] at hndsnap
  have hnot1 : o.oid ∉ s1 := by
    intro hmem1
    exact (List.nodup_append.mp hndsnap).2.2 hmem1 (List.mem_cons_self _ _)
  have hnot2 : o.oid ∉ s2 :=
    (List.nodup_cons.mp (List.nodup_append.mp hndsnap).2.1).1
  rw [hsplit, List.foldl_append, List.foldl_cons]
  have base := foldl_completeOrder_invariant gameTime o.oid o s1 hnot1
    (promoteOrders gameTime k orders, customers) hfind1 howner
  constructor
  · intro hge
    have step := completeOrder_target_served gameTime o.oid o _ base.1 base.2 hprep hge
    exact (foldl_completeOrder_invariant gameTime o.oid _ s2 hnot2 _ step.1 step.2).1
  · intro hlt
    rw [completeOrder_target_early gameTime o.oid o _ base.1 hlt]
    exact (foldl_completeOrder_invariant gameTime o.oid o s2 hnot2 _ base.1 base.2).1

/-- C5 amended: provided the customer who placed the order is still present
in the live customer set, an order in status preparing with effective start
t₀ is marked served by `processOrders` at a tick with `(gameTime − t₀)/60 ≥
prepTime` (stamping `timeCompleted`), and is left untouched — still
preparing — by any earlier tick. Order identities are assumed pairwise
distinct, which the append-only id discipline guarantees. -/
theorem order_served_first_tick_prep_elapsed (sys : CafeSystem) (gameTime : ℚ)
    (o : Order) (hnd : (sys.orders.map Order.oid).Nodup) (ho : o ∈ sys.orders)
    (hprep : o.status = .preparing)
    (howner : sys.customers.any (fun c => c.ownsOrder o.oid) = true) :
    ((gameTime - o.effectiveStart) / 60 ≥ o.prepTime →
       (sys.processOrders gameTime).orders.find? (fun x => x.oid == o.oid)
         = some { o with status := .served, timeCompleted := gameTime }) ∧
    ((gameTime - o.effectiveStart) / 60 < o.prepTime →
       (sys.processOrders gameTime).orders.find? (fun x => x.oid == o.oid)
         = some o) :=
  fold_serves_target gameTime sys.orders sys.customers _ o hnd ho hprep howner

/-- Witness for the serving theorem: one preparing order with prep time 4
minutes started at second 60, owner present, tick at second 300 — exactly 4
simulated minutes later — serves it. -/
theorem order_served_first_tick_witness :
    ((mkSystem []
        [mkCustomer 5 .waiting_for_order 10 100 60 none (some (mkOrder 0 .preparing 10 4 60 60))]
        [mkOrder 0 .preparing 10 4 60 60] []).processOrders 300).orders.find?
      (fun x => x.oid == 0)
      = some { mkOrder 0 .preparing 10 4 60 60 with
               status := .served, timeCompleted := 300 } := by
  exact (order_served_first_tick_prep_elapsed
    (mkSystem []
      [mkCustomer 5 .waiting_for_order 10 100 60 none (some (mkOrder 0 .preparing 10 4 60 60))]
      [mkOrder 0 .preparing 10 4 60 60] []) 300 (mkOrder 0 .preparing 10 4 60 60)
    (by simp [mkSystem, mkOrder]) (by simp [mkSystem]) rfl
    (by simp [mkSystem, mkCustomer, mkOrder, Customer.ownsOrder])).1
    (by norm_num [mkOrder, Order.effectiveStart])

/-- C5 counterexample: the claim as stated quantifies over every order. An
order whose owner has already left the customer set (customers are spliced
out on abandonment, while the order list is append-only) reaches its prep
deadline — here prep time 4 minutes, started at second 60, tick at second
300, so elapsed = 4 ≥ 4 — yet is only marked `ready`: `serveOrder` finds no
owning customer and the `served` stamp is skipped; a later tick leaves it
`ready` as well, because the completion loop only looks at `preparing`
orders, so the order never becomes served. -/
theorem orphaned_order_ready_not_served_counterexample :
    (300 - (mkOrder 0 .preparing 10 4 60 60).effectiveStart) / 60
        ≥ (mkOrder 0 .preparing 10 4 60 60).prepTime ∧
    ((mkSystem [] [] [mkOrder 0 .preparing 10 4 60 60] []).processOrders 300).orders.map
        Order.status = [.ready] ∧
    (((mkSystem [] [] [mkOrder 0 .preparing 10 4 60 60] []).processOrders 300).processOrders
        360).orders.map Order.status = [.ready] := by
  refine ⟨by norm_num [mkOrder, Order.effectiveStart], ?_, ?_⟩ <;>
    norm_num [mkSystem, mkOrder, CafeSystem.processOrders, promoteOrders,
      completeOrder, serveOrder, serveOrderAdjust, updateFirst,
      Order.effectiveStart, List.foldl, List.find?, List.countP, List.filter]

/-- Helper: `updateFirst` at the matched element rewrites `find?` through
the update, provided the update preserves the predicate. -/
theorem find?_updateFirst_self {α : Type} (p : α → Bool) (f : α → α)
    (l : List α) (c0 : α) (h : l.find? p = some c0)
    (hpf : ∀ x, p (f x) = p x) :
    (updateFirst p f l).find? p = some (f c0) := by
  induction l with
  | nil => simp at h
  | cons x xs ih =>
    by_cases hx : p x = true
    · rw [List.find?_cons_of_pos _ (by exact hx)] at h
      obtain rfl := Option.some.inj h
      simp only [updateFirst, if_pos hx]
      exact List.find?_cons_of_pos _ (by rw [hpf]; exact hx)
    · rw [List.find?_cons_of_neg _ (by exact hx)] at h
      simp only [updateFirst, if_neg hx]
      rw [List.find?_cons_of_neg _ (by exact hx)]
      exact ih h

/-- Helper: `updateFirst` with a selector disjoint from the search predicate
leaves `find?` unchanged, when the update preserves the search predicate. -/
theorem find?_updateFirst_of_disjoint {α : Type} (p q : α → Bool) (f : α → α)
    (l : List α) (hpf : ∀ x, p (f x) = p x)
    (hdisj : ∀ x, q x = true → p x = false) :
    (updateFirst q f l).find? p = l.find? p := by
  induction l with
  | nil => rfl
  | cons x xs ih =>
    by_cases hq : q x = true
    · simp only [updateFirst, if_pos hq]
      have hpx : p x = false := hdisj x hq
      rw [List.find?_cons_of_neg _ (by rw [hpf]; simp [hpx]),
        List.find?_cons_of_neg _ (by simp [hpx])]
    · simp only [updateFirst, if_neg hq]
      by_cases hp : p x = true
      · rw [List.find?_cons_of_pos _ (by exact hp),
          List.find?_cons_of_pos _ (by exact hp)]
      · rw [List.find?_cons_of_neg _ (by exact hp),
          List.find?_cons_of_neg _ (by exact hp)]
        exact ih

/-- Helper: seating one customer does not touch the record of any customer
with a different identity. -/
theorem seatCustomer_customerById_ne (sys : CafeSystem) (gameTime : ℚ)
    (cid2 tid r1 r2 r3 cid : ℕ) (hne : cid ≠ cid2) :
    (sys.seatCustomer gameTime cid2 tid r1 r2 r3).1.customerById cid
      = sys.customerById cid := by
  have hdisj : ∀ c2 : Customer, (c2.cid == cid2) = true → (c2.cid == cid) = false := by
    intro c2 h2
    rw [Nat.beq_eq_true_eq] at h2
    rw [beq_eq_false_iff_ne, h2]
    exact fun h => hne h.symm
  unfold CafeSystem.seatCustomer
  cases ht : sys.tableById tid with
  | none => rfl
  | some t =>
    simp only
    split
    · rfl
    · split
      · simp only [CafeSystem.customerById, CafeSystem.modifyCustomer,
          CafeSystem.modifyTable]
        rw [find?_updateFirst_of_disjoint _ _ _ _ (by intro x; rfl) hdisj,
          find?_updateFirst_of_disjoint _ _ _ _ (by intro x; rfl) hdisj]
      · simp only [CafeSystem.customerById, CafeSystem.modifyCustomer,
          CafeSystem.modifyTable]
        rw [find?_updateFirst_of_disjoint _ _ _ _ (by intro x; rfl) hdisj]

/-- Helper: seating at a non-dirty table always succeeds: the call returns
true, the customer record gains the table reference, the table becomes
occupied (`waiting`) with the customer back-reference, and the queue is not
touched by `seatCustomer` itself. -/
theorem seatCustomer_seats (sys : CafeSystem) (gameTime : ℚ)
    (cid tid r1 r2 r3 : ℕ) (t : Table) (c0 : Customer)
    (ht : sys.tableById tid = some t) (hnd : t.status ≠ .dirty)
    (hc : sys.customerById cid = some c0) :
    (sys.seatCustomer gameTime cid tid r1 r2 r3).2.1 = true ∧
    (∃ c2 : Customer, (sys.seatCustomer gameTime cid tid r1 r2 r3).1.customerById cid
        = some c2 ∧ c2.table = some tid) ∧
    (sys.seatCustomer gameTime cid tid r1 r2 r3).1.tables
      = updateFirst (fun tb => tb.tid == tid)
          (fun tb => { tb with customer := some cid, status := .waiting }) sys.tables ∧
    (sys.seatCustomer gameTime cid tid r1 r2 r3).1.queue = sys.queue := by
  unfold CafeSystem.seatCustomer
  rw [ht]
  simp only
  rw [if_neg hnd]
  have hin := find?_updateFirst_self (fun c2 : Customer => c2.cid == cid)
    (fun c2 : Customer =>
      { c2 with
        table := some tid,
        state := CustomerState.waiting,
        waitStartTime := gameTime }) sys.customers c0 hc (by intro x; rfl)
  split
  · refine ⟨rfl, ?_, rfl, rfl⟩
    refine ⟨_, find?_updateFirst_self _ _ _ _ hin (by intro x; rfl), ?_⟩
    rfl
  · refine ⟨rfl, ⟨_, hin, ?_⟩, rfl, rfl⟩
    rfl

/-- Helper: one unrolling of the seating loop when a table is available. -/
theorem processQueueLoop_cons_some (gameTime : ℚ) (cid : ℕ) (rest : List ℕ)
    (rands : List (ℕ × ℕ × ℕ)) (sys : CafeSystem) (tb : Table)
    (h : sys.findAvailableTable = some tb) :
    CafeSystem.processQueueLoop gameTime (cid :: rest) rands sys
      = ((CafeSystem.processQueueLoop gameTime rest rands.tail
            { (sys.seatCustomer gameTime cid tb.tid (rands.headD (0, 0, 0)).1
                (rands.headD (0, 0, 0)).2.1 (rands.headD (0, 0, 0)).2.2).1 with
              queue := (sys.seatCustomer gameTime cid tb.tid (rands.headD (0, 0, 0)).1
                (rands.headD (0, 0, 0)).2.1 (rands.headD (0, 0, 0)).2.2).1.queue.filter
                  (fun cid2 => cid2 != cid) }).1,
         (sys.seatCustomer gameTime cid tb.tid (rands.headD (0, 0, 0)).1
            (rands.headD (0, 0, 0)).2.1 (rands.headD (0, 0, 0)).2.2).2.2
           ++ (CafeSystem.processQueueLoop gameTime rest rands.tail
              { (sys.seatCustomer gameTime cid tb.tid (rands.headD (0, 0, 0)).1
                  (rands.headD (0, 0, 0)).2.1 (rands.headD (0, 0, 0)).2.2).1 with
                queue := (sys.seatCustomer gameTime cid tb.tid (rands.headD (0, 0, 0)).1
                  (rands.headD (0, 0, 0)).2.1 (rands.headD (0, 0, 0)).2.2).1.queue.filter
                    (fun cid2 => cid2 != cid) }).2) := by
  simp only [CafeSystem.processQueueLoop, h]

/-- Helper: the seating loop breaks immediately when no table is available,
leaving the whole system untouched. -/
theorem processQueueLoop_none (gameTime : ℚ) (ids : List ℕ)
    (rands : List (ℕ × ℕ × ℕ)) (sys : CafeSystem)
    (h : sys.findAvailableTable = none) :
    CafeSystem.processQueueLoop gameTime ids rands sys = (sys, []) := by
  cases ids with
  | nil => rfl
  | cons cid rest => simp only [CafeSystem.processQueueLoop, h]

/-- Helper: the seating loop never touches the record of a customer whose
identity is not in its worklist. -/
theorem processQueueLoop_customerById (gameTime : ℚ) (ids : List ℕ)
    (rands : List (ℕ × ℕ × ℕ)) (sys : CafeSystem) (cid : ℕ) (h : cid ∉ ids) :
    (CafeSystem.processQueueLoop gameTime ids rands sys).1.customerById cid
      = sys.customerById cid := by
  induction ids generalizing rands sys with
  | nil => rfl
  | cons cid2 rest ih =>
    cases hf : sys.findAvailableTable with
    | none => rw [processQueueLoop_none _ _ _ _ hf]
    | some tb =>
      rw [processQueueLoop_cons_some _ _ _ _ _ _ hf]
      simp only
      rw [ih rands.tail _ (fun hm => h (List.mem_cons_of_mem _ hm))]
      rw [show ∀ (s2 : CafeSystem) (q2 : List ℕ),
          ({ s2 with queue := q2 } : CafeSystem).customerById cid
            = s2.customerById cid from fun s2 q2 => rfl]
      exact seatCustomer_customerById_ne sys gameTime cid2 tb.tid _ _ _ cid
        (fun hEq => h (hEq ▸ List.mem_cons_self _ _))

/-- Helper: a customer absent from the waiting queue is never reconsidered
for seating — `processQueue` leaves their record unchanged. -/
theorem processQueue_customerById_not_queued (sys : CafeSystem) (gameTime : ℚ)
    (rands : List (ℕ × ℕ × ℕ)) (cid : ℕ) (hnq : cid ∉ sys.queue) :
    (sys.processQueue gameTime rands).1.customerById cid
      = sys.customerById cid := by
  have hrepr : (sys.processQueue gameTime rands).1.customerById cid
      = (CafeSystem.processQueueLoop gameTime
          (sys.queue.filter (fun cid2 =>
            match sys.customerById cid2 with
            | some c2 => c2.state == .waiting
            | none => false)) rands sys).1.customerById cid := rfl
  rw [hrepr]
  exact processQueueLoop_customerById gameTime _ rands sys cid
    (fun hm => hnq (List.mem_of_mem_filter hm))

/-- C9 counterexample: the claim says that with customers A, B, C queued in
arrival order and one seat becoming free, A is seated and never B or C. With
a dirty table listed before the single empty table, `findAvailableTable`
hands A the dirty table, `seatCustomer` refuses (starting its cleaning) yet
`processQueue` drops A from the queue anyway, and on the next iteration B is
seated at the empty table: afterward B holds table 1 while A — still in
state waiting — holds no table and is no longer queued. -/
theorem fifo_violated_by_dirty_table_counterexample :
    (((mkSystem [⟨0, none, .dirty, 0⟩, ⟨1, none, .empty, 0⟩]
        [mkCustomer 0 .waiting 10 100 0 none none, mkCustomer 1 .waiting 10 100 0 none none,
         mkCustomer 2 .waiting 10 100 0 none none] [] [0, 1, 2]).processQueue 60
           []).1.customerById 1).map Customer.table = some (some 1) ∧
    (((mkSystem [⟨0, none, .dirty, 0⟩, ⟨1, none, .empty, 0⟩]
        [mkCustomer 0 .waiting 10 100 0 none none, mkCustomer 1 .waiting 10 100 0 none none,
         mkCustomer 2 .waiting 10 100 0 none none] [] [0, 1, 2]).processQueue 60
           []).1.customerById 0).map Customer.table = some none ∧
    (((mkSystem [⟨0, none, .dirty, 0⟩, ⟨1, none, .empty, 0⟩]
        [mkCustomer 0 .waiting 10 100 0 none none, mkCustomer 1 .waiting 10 100 0 none none,
         mkCustomer 2 .waiting 10 100 0 none none] [] [0, 1, 2]).processQueue 60
           []).1.customerById 0).map Customer.state = some CustomerState.waiting ∧
    ((mkSystem [⟨0, none, .dirty, 0⟩, ⟨1, none, .empty, 0⟩]
        [mkCustomer 0 .waiting 10 100 0 none none, mkCustomer 1 .waiting 10 100 0 none none,
         mkCustomer 2 .waiting 10 100 0 none none] [] [0, 1, 2]).processQueue 60
           []).1.queue = [2] := by
  refine ⟨?_, ?_, ?_, ?_⟩ <;> rfl

/-- C9 amended: FIFO seating holds when no dirty table precedes the empty
one: with customers A, B, C queued in that arrival order — arbitrary
category, patience and other attributes — one empty table and the other
occupied, `processQueue` seats A at the empty table while the records of B
and C are untouched and the queue keeps them in order; and whenever no empty
or dirty table exists, the seating loop stops at the head of the queue,
changing nothing. -/
theorem fifo_seating_head_gets_single_empty_table (a b c : Customer)
    (gameTime : ℚ) (rands : List (ℕ × ℕ × ℕ))
    (ha : a.cid = 0) (hb : b.cid = 1) (hc : c.cid = 2)
    (hsa : a.state = .waiting) (hsb : b.state = .waiting) (hsc : c.state = .waiting) :
    (∃ a2 : Customer,
      ((mkSystem [⟨0, some 9, .waiting, 0⟩, ⟨1, none, .empty, 0⟩] [a, b, c] []
          [0, 1, 2]).processQueue gameTime rands).1.customerById 0 = some a2 ∧
      a2.table = some 1) ∧
    ((mkSystem [⟨0, some 9, .waiting, 0⟩, ⟨1, none, .empty, 0⟩] [a, b, c] []
        [0, 1, 2]).processQueue gameTime rands).1.customerById 1 = some b ∧
    ((mkSystem [⟨0, some 9, .waiting, 0⟩, ⟨1, none, .empty, 0⟩] [a, b, c] []
        [0, 1, 2]).processQueue gameTime rands).1.customerById 2 = some c ∧
    ((mkSystem [⟨0, some 9, .waiting, 0⟩, ⟨1, none, .empty, 0⟩] [a, b, c] []
        [0, 1, 2]).processQueue gameTime rands).1.queue = [1, 2] ∧
    (∀ (sys2 : CafeSystem) (ids : List ℕ) (rands2 : List (ℕ × ℕ × ℕ)),
       sys2.findAvailableTable = none →
       CafeSystem.processQueueLoop gameTime ids rands2 sys2 = (sys2, [])) := by
  set sysX := mkSystem [⟨0, some 9, .waiting, 0⟩, ⟨1, none, .empty, 0⟩] [a, b, c] []
    [0, 1, 2] with hsysX
  set r := rands.headD (0, 0, 0) with hr
  have hq0 : sysX.customerById 0 = some a := by
    simp [hsysX, mkSystem, CafeSystem.customerById, ha]
  have hq1 : sysX.customerById 1 = some b := by
    simp [hsysX, mkSystem, CafeSystem.customerById, ha, hb]
  have hq2 : sysX.customerById 2 = some c := by
    simp [hsysX, mkSystem, CafeSystem.customerById, ha, hb, hc]
  have hwc : sysX.queue.filter (fun cid2 =>
      match sysX.customerById cid2 with
      | some c2 => c2.state == CustomerState.waiting
      | none => false) = [0, 1, 2] := by
    have hqm : sysX.queue = [0, 1, 2] := rfl
    rw [hqm]
    simp only [List.filter_cons, List.filter_nil, hq0, hq1, hq2, hsa, hsb, hsc]
    simp
  have hfind1 : sysX.findAvailableTable = some ⟨1, none, .empty, 0⟩ := rfl
  obtain ⟨hseated, ⟨a2, ha2eq, ha2t⟩, htab, hque⟩ :=
    seatCustomer_seats sysX gameTime 0 1 r.1 r.2.1 r.2.2
      ⟨1, none, .empty, 0⟩ a rfl (by simp) hq0
  have hloop : (CafeSystem.processQueueLoop gameTime [0, 1, 2] rands sysX).1
      = { (sysX.seatCustomer gameTime 0 1 r.1 r.2.1 r.2.2).1 with
          queue := (sysX.seatCustomer gameTime 0 1 r.1 r.2.1 r.2.2).1.queue.filter
            (fun cid2 => cid2 != 0) } := by
    rw [processQueueLoop_cons_some gameTime 0 [1, 2] rands sysX _ hfind1]
    rw [processQueueLoop_none gameTime [1, 2] rands.tail _
      (by
        show List.find? _ (sysX.seatCustomer gameTime 0 1 r.1 r.2.1 r.2.2).1.tables = none
        rw [htab]
        rfl)]
  have hPQ : (sysX.processQueue gameTime rands).1
      = (CafeSystem.processQueueLoop gameTime [0, 1, 2] rands sysX).1.updateQueueModel
          gameTime := by
    show (CafeSystem.processQueueLoop gameTime (sysX.queue.filter _) rands
      sysX).1.updateQueueModel gameTime = _
    rw [hwc]
  have hcbm : ∀ (x : CafeSystem) (gt : ℚ) (n : ℕ),
      (x.updateQueueModel gt).customerById n = x.customerById n := fun _ _ _ => rfl
  have hqum : ∀ (x : CafeSystem) (gt : ℚ),
      (x.updateQueueModel gt).queue = x.queue := fun _ _ => rfl
  have hcbq : ∀ (x : CafeSystem) (q : List ℕ) (n : ℕ),
      ({ x with queue := q } : CafeSystem).customerById n = x.customerById n :=
    fun _ _ _ => rfl
  refine ⟨⟨a2, ?_, ha2t⟩, ?_, ?_, ?_,
    fun sys2 ids rands2 h => processQueueLoop_none gameTime ids rands2 sys2 h⟩
  · rw [hPQ, hcbm, hloop, hcbq]
    exact ha2eq
  · rw [hPQ, hcbm, hloop, hcbq]
    rw [seatCustomer_customerById_ne sysX gameTime 0 1 r.1 r.2.1 r.2.2 1 (by omega)]
    exact hq1
  · rw [hPQ, hcbm, hloop, hcbq]
    rw [seatCustomer_customerById_ne sysX gameTime 0 1 r.1 r.2.1 r.2.2 2 (by omega)]
    exact hq2
  · rw [hPQ, hqum, hloop]
    show (sysX.seatCustomer gameTime 0 1 r.1 r.2.1 r.2.2).1.queue.filter
      (fun cid2 => cid2 != 0) = [1, 2]
    rw [hque]
    rfl

/-- Witness for the FIFO seating theorem: three queued students with
different patience values, one empty table behind an occupied one — the
second and third customers are untouched and stay queued in order. -/
theorem fifo_seating_witness :
    ((mkSystem [⟨0, some 9, .waiting, 0⟩, ⟨1, none, .empty, 0⟩]
        [mkCustomer 0 .waiting 10 100 0 none none, mkCustomer 1 .waiting 12 90 0 none none,
         mkCustomer 2 .waiting 8 80 0 none none] [] [0, 1, 2]).processQueue 60
          []).1.customerById 1 = some (mkCustomer 1 .waiting 12 90 0 none none) ∧
    ((mkSystem [⟨0, some 9, .waiting, 0⟩, ⟨1, none, .empty, 0⟩]
        [mkCustomer 0 .waiting 10 100 0 none none, mkCustomer 1 .waiting 12 90 0 none none,
         mkCustomer 2 .waiting 8 80 0 none none] [] [0, 1, 2]).processQueue 60
          []).1.queue = [1, 2] := by
  have h := fifo_seating_head_gets_single_empty_table
    (mkCustomer 0 .waiting 10 100 0 none none) (mkCustomer 1 .waiting 12 90 0 none none)
    (mkCustomer 2 .waiting 8 80 0 none none) 60 [] rfl rfl rfl rfl rfl rfl
  exact ⟨h.2.1, h.2.2.2.1⟩

/-- C10: when the first available table found for the head-of-queue customer
is dirty, `processQueue` removes that customer from the queue even though
`seatCustomer` returned false without seating them (the Boolean result is
ignored at the call site): afterwards the customer record is bitwise
unchanged — state still waiting, no table — while the queue no longer holds
them and the table is in `cleaning`; a customer whose identity is absent
from the queue is never reconsidered for seating (`processQueue` leaves
their record unchanged); and the only event a waiting customer can ever emit
from `update` is the abandonment `customer_left waited_too_long`. -/
theorem dirty_first_table_drops_customer_from_queue :
    ((mkSystem [⟨0, none, .dirty, 0⟩] [mkCustomer 0 .waiting 10 100 0 none none]
        [] [0]).processQueue 60 []).1.queue = [] ∧
    ((mkSystem [⟨0, none, .dirty, 0⟩] [mkCustomer 0 .waiting 10 100 0 none none]
        [] [0]).processQueue 60 []).1.customerById 0
      = some (mkCustomer 0 .waiting 10 100 0 none none) ∧
    (((mkSystem [⟨0, none, .dirty, 0⟩] [mkCustomer 0 .waiting 10 100 0 none none]
        [] [0]).processQueue 60 []).1.tableById 0).map Table.status
      = some TableStatus.cleaning ∧
    ((mkSystem [⟨0, none, .dirty, 0⟩] [mkCustomer 0 .waiting 10 100 0 none none]
        [] [0]).seatCustomer 60 0 0 0 0 0).2.1 = false ∧
    (∀ (sys : CafeSystem) (gameTime : ℚ) (rands : List (ℕ × ℕ × ℕ)) (cid : ℕ),
       cid ∉ sys.queue →
       (sys.processQueue gameTime rands).1.customerById cid = sys.customerById cid) ∧
    (∀ (c : Customer) (t d tr : ℚ), c.state = .waiting →
       (c.update t d tr).2 = none ∨
       (c.update t d tr).2 = some (.customer_left .waited_too_long)) := by
  refine ⟨rfl, rfl, rfl, rfl,
    fun sys gameTime rands cid h =>
      processQueue_customerById_not_queued sys gameTime rands cid h,
    fun c t d tr hw => ?_⟩
  by_cases hgt : (t - c.waitStartTime) / 60 > c.patience
  · right
    simp [Customer.update, hw, hgt]
  · left
    simp [Customer.update, hw, hgt]

/-- Witness for the dropped-customer theorem: the never-reconsidered clause
at an empty queue and the abandonment-only clause at a waiting student. -/
theorem dirty_first_table_drops_customer_witness :
    ((mkSystem [] [] [] []).processQueue 120 []).1.customerById 7
      = (mkSystem [] [] [] []).customerById 7 ∧
    (((mkCustomer 3 .waiting 10 100 0 none none).update 30 1 0).2 = none ∨
     ((mkCustomer 3 .waiting 10 100 0 none none).update 30 1 0).2
       = some (.customer_left .waited_too_long)) := by
  exact ⟨dirty_first_table_drops_customer_from_queue.2.2.2.2.1
      (mkSystem [] [] [] []) 120 [] 7 (by simp [mkSystem]),
    dirty_first_table_drops_customer_from_queue.2.2.2.2.2
      (mkCustomer 3 .waiting 10 100 0 none none) 30 1 0 rfl⟩

end Bloom
